import Mathlib

/-!
Verification of the finite-state-machine engine and its modulo-3
specialization (`mod_three_fsm.py`).

The Python code is shallowly embedded: the mutable `FSM` instance becomes a
structure `Inst` threaded explicitly through each operation; a Python method
that may raise becomes a function returning a pair of an `Except` result and
the instance as it stands when the method returns or raises (so the
"no rollback on exception" behaviour of Python is captured directly).
Python dictionaries become association lists looked up from the front, and
Python sets become lists with membership tests.
-/

namespace ModThreeVerify

deriving instance DecidableEq for Except

/-- Error kinds, one per abstract error of the design: the five `ValueError`
raise sites of `FSM._validate_fsm` are `validationError`; the `ValueError`
of `FSM.process_input` and the up-front character check of
`ModThreeFSM.calculate_remainder` are `invalidSymbol`; the `KeyError` from a
missing transition-table entry in `FSM.process_input` is
`undefinedTransition`; the empty-string `ValueError` of `FSM.process_string`
and `ModThreeFSM.calculate_remainder` is `emptyInput`; the `RuntimeError` at
the end of `calculate_remainder` is `invalidFinalState`. -/
inductive Err : Type
  | validationError : Err
  | invalidSymbol : Err
  | undefinedTransition : Err
  | emptyInput : Err
  | invalidFinalState : Err
  deriving DecidableEq

/-- An FSM definition: the five constructor arguments of `FSM.__init__`.
`trans` is the dict-of-dicts `transition_function` as an association list of
association lists. -/
structure Machine (σ α : Type) : Type where
  states : List σ
  alphabet : List α
  initial : σ
  finals : List σ
  trans : List (σ × List (α × σ))
  deriving DecidableEq

/-- An FSM instance: the machine definition plus the mutable
`current_state` field. -/
structure Inst (σ α : Type) : Type where
  machine : Machine σ α
  current : σ
  deriving DecidableEq

/-- First-match lookup in an association list (a Python dict access). -/
def lookupA {κ β : Type} [DecidableEq κ] (k : κ) : List (κ × β) → Option β
  | [] => none
  | (k2, v) :: rest => if k = k2 then some v else lookupA k rest

/-- The double dict access `transition_function[state][symbol]`:
`none` models the `KeyError` of a missing outer or inner key. -/
def lookupTrans {σ α : Type} [DecidableEq σ] [DecidableEq α]
    (m : Machine σ α) (s : σ) (a : α) : Option σ :=
  match lookupA s m.trans with
  | none => none
  | some inner => lookupA a inner

/-- The inner loop of `FSM._validate_fsm` over one state's transition dict:
each symbol must be in the alphabet and each target state in the state set,
checked in that order, first violation raising. -/
def checkInner {σ α : Type} [DecidableEq σ] [DecidableEq α]
    (m : Machine σ α) : List (α × σ) → Except Err Unit
  | [] => .ok ()
  | (sym, tgt) :: rest =>
    if sym ∈ m.alphabet then
      if tgt ∈ m.states then checkInner m rest
      else .error .validationError
    else .error .validationError

/-- The outer loop of `FSM._validate_fsm` over the transition dict: each
source state must be in the state set, then its inner dict is checked. -/
def checkTrans {σ α : Type} [DecidableEq σ] [DecidableEq α]
    (m : Machine σ α) : List (σ × List (α × σ)) → Except Err Unit
  | [] => .ok ()
  | (src, inner) :: rest =>
    if src ∈ m.states then
      match checkInner m inner with
      | .ok _ => checkTrans m rest
      | .error e => .error e
    else .error .validationError

/-- `FSM._validate_fsm`: initial state in the state set, final states a
subset of the state set, then the transition-table checks. -/
def validateFSM {σ α : Type} [DecidableEq σ] [DecidableEq α]
    (m : Machine σ α) : Except Err Unit :=
  if m.initial ∈ m.states then
    if ∀ f ∈ m.finals, f ∈ m.states then checkTrans m m.trans
    else .error .validationError
  else .error .validationError

/-- `FSM.__init__`: store the definition, set `current_state` to the initial
state, validate; a validation failure propagates and no instance exists. -/
def mkFSM {σ α : Type} [DecidableEq σ] [DecidableEq α]
    (m : Machine σ α) : Except Err (Inst σ α) :=
  match validateFSM m with
  | .error e => .error e
  | .ok _ => .ok ⟨m, m.initial⟩

/-- `FSM.reset`: set `current_state` back to the initial state. -/
def reset {σ α : Type} (i : Inst σ α) : Inst σ α :=
  ⟨i.machine, i.machine.initial⟩

/-- `FSM.process_input`: reject a symbol outside the alphabet, then look up
`transition_function[current_state][input_symbol]`; a missing entry raises
(`KeyError`) before the assignment to `current_state`, so the instance is
returned unchanged in both error cases. On success the new current state is
assigned and returned. -/
def processInput {σ α : Type} [DecidableEq σ] [DecidableEq α]
    (i : Inst σ α) (sym : α) : Except Err σ × Inst σ α :=
  if sym ∈ i.machine.alphabet then
    match lookupTrans i.machine i.current sym with
    | none => (.error .undefinedTransition, i)
    | some s => (.ok s, ⟨i.machine, s⟩)
  else (.error .invalidSymbol, i)

/-- The `for symbol in input_string` loop of `FSM.process_string`: apply
`processInput` to each symbol left to right; a failure propagates at once,
keeping the instance exactly as the last successful step left it. -/
def processStringAux {σ α : Type} [DecidableEq σ] [DecidableEq α]
    (i : Inst σ α) : List α → Except Err Unit × Inst σ α
  | [] => (.ok (), i)
  | c :: cs =>
    match processInput i c with
    | (.error e, i2) => (.error e, i2)
    | (.ok _, i2) => processStringAux i2 cs

/-- `FSM.process_string`: reject the empty string, then run the loop and
return the final current state. -/
def processString {σ α : Type} [DecidableEq σ] [DecidableEq α]
    (i : Inst σ α) (s : List α) : Except Err σ × Inst σ α :=
  if s.isEmpty then (.error .emptyInput, i)
  else
    match processStringAux i s with
    | (.error e, i2) => (.error e, i2)
    | (.ok _, i2) => (.ok i2.current, i2)

/-- `FSM.is_in_final_state`. -/
def isInFinalState {σ α : Type} [DecidableEq σ] (i : Inst σ α) : Bool :=
  decide (i.current ∈ i.machine.finals)

/-- The three states of `ModThreeState`. -/
inductive ModThreeState : Type
  | S0 : ModThreeState
  | S1 : ModThreeState
  | S2 : ModThreeState
  deriving DecidableEq

open ModThreeState

/-- The machine definition hard-coded in `ModThreeFSM.__init__`: states
S0/S1/S2, alphabet `{'0','1'}`, initial state S0, all states final, and the
transition table of the code. -/
def modThreeMachine : Machine ModThreeState Char where
  states := [S0, S1, S2]
  alphabet := ['0', '1']
  initial := S0
  finals := [S0, S1, S2]
  trans :=
    [ (S0, [('0', S0), ('1', S1)]),
      (S1, [('0', S2), ('1', S0)]),
      (S2, [('0', S1), ('1', S2)]) ]

/-- `ModThreeFSM()`: construct (and validate) the fixed machine. -/
def mkModThreeFSM : Except Err (Inst ModThreeState Char) :=
  mkFSM modThreeMachine

/-- The `remainder_map` dict of `calculate_remainder`. -/
def remainderMap : List (ModThreeState × Nat) :=
  [(S0, 0), (S1, 1), (S2, 2)]

/-- `ModThreeFSM.calculate_remainder`: reject the empty string; reject a
string with any character outside the alphabet before touching the state;
run the engine from the instance's current state; reset; decode the final
state through `remainder_map`, the missing-key branch being the
`RuntimeError`. -/
def calculateRemainder (i : Inst ModThreeState Char) (s : List Char) :
    Except Err Nat × Inst ModThreeState Char :=
  if s.isEmpty then (.error .emptyInput, i)
  else if s.all (fun c => decide (c ∈ i.machine.alphabet)) then
    match processString i s with
    | (.error e, i2) => (.error e, i2)
    | (.ok fin, i2) =>
      let i3 := reset i2
      match lookupA fin remainderMap with
      | none => (.error .invalidFinalState, i3)
      | some r => (.ok r, i3)
  else (.error .invalidSymbol, i)

/-- Numeric value of one binary character. -/
def bitVal (c : Char) : Nat := if c = '1' then 1 else 0

/-- Value of a binary string read most-significant bit first, starting from
accumulator `v` (the usual `int(s, base=2)` fold). -/
def binValFrom (v : Nat) (s : List Char) : Nat :=
  s.foldl (fun r c => 2 * r + bitVal c) v

/-- `int(s, base=2)` for a binary string. -/
def binVal (s : List Char) : Nat := binValFrom 0 s

/-- The remainder a state stands for. -/
def stVal : ModThreeState → Nat
  | S0 => 0
  | S1 => 1
  | S2 => 2

/-- The state standing for `n % 3`. -/
def stateOfMod (n : Nat) : ModThreeState :=
  if n % 3 = 0 then S0 else if n % 3 = 1 then S1 else S2

/-- A deliberately partial machine for exercising the missing-transition
path of `FSM.process_input`: the pair `(S0, '1')` is absent from its
transition table although `'1'` is in its alphabet. -/
def partialMachine : Machine ModThreeState Char where
  states := [S0, S1]
  alphabet := ['0', '1']
  initial := S0
  finals := [S0]
  trans := [(S0, [('0', S0)])]

/-! ### Arithmetic lemmas about the binary value -/

theorem binValFrom_cons (a : Nat) (c : Char) (cs : List Char) :
    binValFrom a (c :: cs) = binValFrom (2 * a + bitVal c) cs := by
  simp [binValFrom]

theorem binValFrom_split (s : List Char) :
    ∀ a : Nat, binValFrom a s = a * 2 ^ s.length + binVal s := by
  induction s with
  | nil => intro a; simp [binValFrom, binVal]
  | cons c cs ih =>
    intro a
    rw [binValFrom_cons, ih]
    have h2 : binVal (c :: cs) = binValFrom (bitVal c) cs := by
      simp [binVal, binValFrom, bitVal]
    rw [h2, ih (bitVal c), List.length_cons, pow_succ]
    ring

theorem binValFrom_mod_congr (s : List Char) (a b : Nat) (h : a % 3 = b % 3) :
    binValFrom a s % 3 = binValFrom b s % 3 := by
  rw [binValFrom_split s a, binValFrom_split s b]
  have hm : a * 2 ^ s.length % 3 = b * 2 ^ s.length % 3 := by
    rw [Nat.mul_mod, h, ← Nat.mul_mod]
  omega

theorem stVal_stateOfMod (n : Nat) : stVal (stateOfMod n) = n % 3 := by
  have h3 : n % 3 < 3 := Nat.mod_lt _ (by norm_num)
  unfold stateOfMod
  split_ifs with h1 h2 <;> simp [stVal] <;> omega

theorem stateOfMod_stVal (st : ModThreeState) : stateOfMod (stVal st) = st := by
  cases st <;> rfl

theorem stateOfMod_congr (a b : Nat) (h : a % 3 = b % 3) :
    stateOfMod a = stateOfMod b := by
  simp [stateOfMod, h]

/-! ### Characterizing a run of the modulo-3 machine -/

theorem processInput_binary (st : ModThreeState) (c : Char)
    (hc : c = '0' ∨ c = '1') :
    processInput ⟨modThreeMachine, st⟩ c =
      (.ok (stateOfMod (2 * stVal st + bitVal c)),
        ⟨modThreeMachine, stateOfMod (2 * stVal st + bitVal c)⟩) := by
  rcases hc with hc | hc <;> subst hc <;> cases st <;> rfl

theorem processStringAux_run (s : List Char) : ∀ st : ModThreeState,
    (∀ c ∈ s, c = '0' ∨ c = '1') →
    processStringAux ⟨modThreeMachine, st⟩ s =
      (.ok (), ⟨modThreeMachine, stateOfMod (binValFrom (stVal st) s)⟩) := by
  induction s with
  | nil =>
    intro st _
    simp [processStringAux, binValFrom, stateOfMod_stVal]
  | cons c cs ih =>
    intro st h
    have hc := h c (List.mem_cons_self c cs)
    have hcs : ∀ x ∈ cs, x = '0' ∨ x = '1' :=
      fun x hx => h x (List.mem_cons_of_mem c hx)
    rw [processStringAux, processInput_binary st c hc]
    dsimp only
    rw [ih _ hcs, binValFrom_cons]
    have hk : stateOfMod (binValFrom (stVal (stateOfMod (2 * stVal st + bitVal c))) cs)
        = stateOfMod (binValFrom (2 * stVal st + bitVal c) cs) := by
      rw [stVal_stateOfMod]
      exact stateOfMod_congr _ _ (binValFrom_mod_congr cs _ _ (by omega))
    rw [hk]

theorem isEmpty_false_of_ne_nil {β : Type} {s : List β} (h : s ≠ []) :
    s.isEmpty = false := by
  cases s with
  | nil => exact absurd rfl h
  | cons c cs => rfl

theorem processString_run (st : ModThreeState) (s : List Char) (h1 : s ≠ [])
    (h2 : ∀ c ∈ s, c = '0' ∨ c = '1') :
    processString ⟨modThreeMachine, st⟩ s =
      (.ok (stateOfMod (binValFrom (stVal st) s)),
        ⟨modThreeMachine, stateOfMod (binValFrom (stVal st) s)⟩) := by
  rw [processString, isEmpty_false_of_ne_nil h1]
  simp only [Bool.false_eq_true, if_false]
  rw [processStringAux_run s st h2]

theorem lookupA_remainderMap (st : ModThreeState) :
    lookupA st remainderMap = some (stVal st) := by
  cases st <;> rfl

theorem all_binary_of_forall (s : List Char)
    (h2 : ∀ c ∈ s, c = '0' ∨ c = '1') :
    (s.all fun c => decide (c ∈ modThreeMachine.alphabet)) = true := by
  rw [List.all_eq_true]
  intro c hc
  rcases h2 c hc with h | h <;> subst h <;> decide

theorem calc_spec (st : ModThreeState) (s : List Char) (h1 : s ≠ [])
    (h2 : ∀ c ∈ s, c = '0' ∨ c = '1') :
    calculateRemainder ⟨modThreeMachine, st⟩ s =
      (.ok (binValFrom (stVal st) s % 3), ⟨modThreeMachine, ModThreeState.S0⟩) := by
  rw [calculateRemainder, isEmpty_false_of_ne_nil h1]
  simp only [Bool.false_eq_true, if_false, all_binary_of_forall s h2, if_true]
  rw [processString_run st s h1 h2]
  simp only [lookupA_remainderMap, reset, stVal_stateOfMod]
  rfl

/-! ### The invalid-character path of calculate_remainder -/

theorem mem_alphabet_iff (c : Char) :
    c ∈ modThreeMachine.alphabet ↔ (c = '0' ∨ c = '1') := by
  simp [modThreeMachine]

theorem all_binary_false (s : List Char)
    (h : ¬ ∀ c ∈ s, c = '0' ∨ c = '1') :
    (s.all fun c => decide (c ∈ modThreeMachine.alphabet)) = false := by
  cases hb : s.all fun c => decide (c ∈ modThreeMachine.alphabet) with
  | false => rfl
  | true =>
    exfalso
    apply h
    intro c hc
    have hd := List.all_eq_true.mp hb c hc
    exact (mem_alphabet_iff c).mp (of_decide_eq_true hd)

theorem calc_invalid_aux (st : ModThreeState) (s : List Char)
    (h : ¬ ∀ c ∈ s, c = '0' ∨ c = '1') :
    calculateRemainder ⟨modThreeMachine, st⟩ s =
      (.error .invalidSymbol, ⟨modThreeMachine, st⟩) := by
  have h1 : s ≠ [] := by
    rintro rfl
    exact h (by intro c hc; cases hc)
  rw [calculateRemainder, isEmpty_false_of_ne_nil h1]
  simp only [Bool.false_eq_true, if_false, all_binary_false s h]

theorem calc_snd_from_initial (s : List Char) :
    (calculateRemainder ⟨modThreeMachine, ModThreeState.S0⟩ s).2 =
      ⟨modThreeMachine, ModThreeState.S0⟩ := by
  by_cases h1 : s = []
  · subst h1; rfl
  · by_cases h2 : ∀ c ∈ s, c = '0' ∨ c = '1'
    · rw [calc_spec _ s h1 h2]
    · rw [calc_invalid_aux _ s h2]

/-! ### Structure of process_string runs (generic engine) -/

theorem processInput_ok {σ α : Type} [DecidableEq σ] [DecidableEq α]
    (i : Inst σ α) (c : α) (st : σ) (i2 : Inst σ α)
    (h : processInput i c = (.ok st, i2)) : i2 = ⟨i.machine, st⟩ := by
  rw [processInput] at h
  split_ifs at h with h1
  · rcases hl : lookupTrans i.machine i.current c with _ | s
    · rw [hl] at h; simp at h
    · rw [hl] at h
      dsimp only at h
      injection h with ha hb
      injection ha with hs
      subst hs
      exact hb.symm
  · simp at h

theorem processStringAux_append {σ α : Type} [DecidableEq σ] [DecidableEq α]
    (xs ys : List α) : ∀ i : Inst σ α,
    processStringAux i (xs ++ ys) =
      match processStringAux i xs with
      | (.error e, i2) => (.error e, i2)
      | (.ok _, i2) => processStringAux i2 ys := by
  induction xs with
  | nil => intro i; rfl
  | cons c cs ih =>
    intro i
    simp only [List.cons_append, processStringAux]
    rcases hpi : processInput i c with ⟨r, i2⟩
    cases r with
    | error e => rfl
    | ok st =>
      dsimp only
      exact ih i2

/-! ### Validation lemmas (FSM construction) -/

theorem checkInner_ok_iff {σ α : Type} [DecidableEq σ] [DecidableEq α]
    (m : Machine σ α) (l : List (α × σ)) :
    checkInner m l = .ok () ↔ ∀ q ∈ l, q.1 ∈ m.alphabet ∧ q.2 ∈ m.states := by
  induction l with
  | nil => simp [checkInner]
  | cons q rest ih =>
    obtain ⟨sym, tgt⟩ := q
    by_cases h1 : sym ∈ m.alphabet
    · by_cases h2 : tgt ∈ m.states
      · simp [checkInner, h1, h2, ih, List.forall_mem_cons]
      · simp [checkInner, h1, h2, List.forall_mem_cons]
    · simp [checkInner, h1, List.forall_mem_cons]

theorem checkInner_dicho {σ α : Type} [DecidableEq σ] [DecidableEq α]
    (m : Machine σ α) (l : List (α × σ)) :
    checkInner m l = .ok () ∨ checkInner m l = .error .validationError := by
  induction l with
  | nil => left; rfl
  | cons q rest ih =>
    obtain ⟨sym, tgt⟩ := q
    by_cases h1 : sym ∈ m.alphabet
    · by_cases h2 : tgt ∈ m.states
      · simpa [checkInner, h1, h2] using ih
      · right; simp [checkInner, h1, h2]
    · right; simp [checkInner, h1]

theorem checkTrans_ok_iff {σ α : Type} [DecidableEq σ] [DecidableEq α]
    (m : Machine σ α) (l : List (σ × List (α × σ))) :
    checkTrans m l = .ok () ↔
      ∀ p ∈ l, p.1 ∈ m.states ∧ ∀ q ∈ p.2, q.1 ∈ m.alphabet ∧ q.2 ∈ m.states := by
  induction l with
  | nil => simp [checkTrans]
  | cons p rest ih =>
    obtain ⟨src, inner⟩ := p
    by_cases h1 : src ∈ m.states
    · rcases checkInner_dicho m inner with hok | herr
      · have hin := (checkInner_ok_iff m inner).mp hok
        rw [checkTrans, if_pos h1, hok]
        dsimp only
        rw [ih, List.forall_mem_cons]
        constructor
        · intro hrest; exact ⟨⟨h1, hin⟩, hrest⟩
        · intro hall; exact hall.2
      · have hni : ¬ ∀ q ∈ inner, q.1 ∈ m.alphabet ∧ q.2 ∈ m.states := by
          rw [← checkInner_ok_iff m inner, herr]
          simp
        rw [checkTrans, if_pos h1, herr]
        dsimp only
        rw [List.forall_mem_cons]
        constructor
        · intro hcontra; exact Except.noConfusion hcontra
        · intro hall; exact absurd hall.1.2 hni
    · rw [checkTrans, if_neg h1, List.forall_mem_cons]
      constructor
      · intro hcontra; exact Except.noConfusion hcontra
      · intro hall; exact absurd hall.1.1 h1

theorem checkTrans_dicho {σ α : Type} [DecidableEq σ] [DecidableEq α]
    (m : Machine σ α) (l : List (σ × List (α × σ))) :
    checkTrans m l = .ok () ∨ checkTrans m l = .error .validationError := by
  induction l with
  | nil => left; rfl
  | cons p rest ih =>
    obtain ⟨src, inner⟩ := p
    by_cases h1 : src ∈ m.states
    · rcases checkInner_dicho m inner with hok | herr
      · simpa [checkTrans, h1, hok] using ih
      · right; simp [checkTrans, h1, herr]
    · right; simp [checkTrans, h1]

theorem validateFSM_ok_iff {σ α : Type} [DecidableEq σ] [DecidableEq α]
    (m : Machine σ α) :
    validateFSM m = .ok () ↔
      (m.initial ∈ m.states ∧ (∀ f ∈ m.finals, f ∈ m.states) ∧
        ∀ p ∈ m.trans, p.1 ∈ m.states ∧
          ∀ q ∈ p.2, q.1 ∈ m.alphabet ∧ q.2 ∈ m.states) := by
  rw [validateFSM]
  split_ifs with h1 h2
  · rw [checkTrans_ok_iff]
    constructor
    · intro h; exact ⟨h1, h2, h⟩
    · intro h; exact h.2.2
  · constructor
    · intro hcontra; cases hcontra
    · intro h; exact absurd h.2.1 h2
  · constructor
    · intro hcontra; cases hcontra
    · intro h; exact absurd h.1 h1

theorem validateFSM_dicho {σ α : Type} [DecidableEq σ] [DecidableEq α]
    (m : Machine σ α) :
    validateFSM m = .ok () ∨ validateFSM m = .error .validationError := by
  rw [validateFSM]
  split_ifs with h1 h2
  · exact checkTrans_dicho m m.trans
  · right; rfl
  · right; rfl

/-! ### Claim theorems -/

/-- Claim C1: for every ModThreeFSM instance whose current state equals its
initial state and every non-empty string over `{'0','1'}`,
`calculate_remainder` returns the value of the string read as a binary
number (most-significant bit first) modulo 3. -/
theorem calculate_remainder_mod_three_correct (i : Inst ModThreeState Char)
    (hm : i.machine = modThreeMachine) (hc : i.current = i.machine.initial)
    (s : List Char) (h1 : s ≠ []) (h2 : ∀ c ∈ s, c = '0' ∨ c = '1') :
    (calculateRemainder i s).1 = .ok (binVal s % 3) := by
  obtain ⟨m, cur⟩ := i
  dsimp only at hm hc
  subst hm
  have hc0 : cur = ModThreeState.S0 := hc
  subst hc0
  rw [calc_spec ModThreeState.S0 s h1 h2]
  rfl

/-- Witness for C1: a freshly constructed instance maps `"1101"` to
`13 % 3 = 1`. -/
theorem calculate_remainder_mod_three_correct_witness :
    (calculateRemainder ⟨modThreeMachine, ModThreeState.S0⟩
      ['1', '1', '0', '1']).1 = .ok (binVal ['1', '1', '0', '1'] % 3) :=
  calculate_remainder_mod_three_correct ⟨modThreeMachine, ModThreeState.S0⟩
    rfl rfl ['1', '1', '0', '1'] (by decide) (by decide)

/-- Claim C2: `process_string` applies `process_input` to each symbol in
order, left to right, returning the final current state; a failing step
propagates immediately and the instance is left exactly where the last
successful step left it (no rollback). Stated as: a run of a single symbol
is exactly one step, and a run of a concatenation is the run of the first
part followed, only on success, by the run of the second part on the
resulting instance, the failing case propagating the error together with
the partially advanced instance. -/
theorem process_string_steps_in_order (σ α : Type)
    [DecidableEq σ] [DecidableEq α] :
    (∀ (i : Inst σ α) (c : α), processString i [c] = processInput i c) ∧
    (∀ (i : Inst σ α) (xs ys : List α), xs ≠ [] → ys ≠ [] →
      processString i (xs ++ ys) =
        match processString i xs with
        | (.error e, i2) => (.error e, i2)
        | (.ok _, i2) => processString i2 ys) := by
  constructor
  · intro i c
    rcases hpi : processInput i c with ⟨r, i2⟩
    cases r with
    | error e =>
      rw [processString]
      simp only [List.isEmpty_cons, Bool.false_eq_true, if_false,
        processStringAux, hpi]
    | ok st =>
      have hi2 := processInput_ok i c st i2 hpi
      rw [processString]
      simp only [List.isEmpty_cons, Bool.false_eq_true, if_false,
        processStringAux, hpi]
      rw [hi2]
  · intro i xs ys hxs hys
    have hxys : xs ++ ys ≠ [] := fun h => hxs (List.append_eq_nil.mp h).1
    rw [processString, isEmpty_false_of_ne_nil hxys]
    simp only [Bool.false_eq_true, if_false]
    rw [processStringAux_append xs ys i]
    rcases haux : processStringAux i xs with ⟨r, i2⟩
    cases r with
    | error e =>
      have hps : processString i xs = (.error e, i2) := by
        rw [processString, isEmpty_false_of_ne_nil hxs]
        simp only [Bool.false_eq_true, if_false]
        rw [haux]
      rw [hps]
    | ok u =>
      have hps : processString i xs = (.ok i2.current, i2) := by
        rw [processString, isEmpty_false_of_ne_nil hxs]
        simp only [Bool.false_eq_true, if_false]
        rw [haux]
      rw [hps]
      dsimp only
      rw [processString, isEmpty_false_of_ne_nil hys]
      simp only [Bool.false_eq_true, if_false]

/-- Witness for C2: splitting the run of `"10"` after its first symbol. -/
theorem process_string_steps_in_order_witness :
    processString (⟨modThreeMachine, ModThreeState.S0⟩ :
        Inst ModThreeState Char) (['1'] ++ ['0']) =
      match processString (⟨modThreeMachine, ModThreeState.S0⟩ :
          Inst ModThreeState Char) ['1'] with
      | (.error e, i2) => (.error e, i2)
      | (.ok _, i2) => processString i2 ['0'] :=
  (process_string_steps_in_order ModThreeState Char).2
    ⟨modThreeMachine, ModThreeState.S0⟩ ['1'] ['0'] (by decide) (by decide)

/-- Counterexample for C3: the returned remainder is not independent of the
instance's current state at call time: on input `"0"`, an instance
currently in S1 returns 2 while an instance currently in S0 returns 0,
because `calculate_remainder` starts `process_string` from the current
state and resets only afterwards. -/
theorem calculate_remainder_depends_on_current_state :
    (calculateRemainder ⟨modThreeMachine, ModThreeState.S1⟩ ['0']).1 =
      .ok 2 ∧
    (calculateRemainder ⟨modThreeMachine, ModThreeState.S0⟩ ['0']).1 =
      .ok 0 ∧
    (calculateRemainder ⟨modThreeMachine, ModThreeState.S1⟩ ['0']).1 ≠
      (calculateRemainder ⟨modThreeMachine, ModThreeState.S0⟩ ['0']).1 := by
  refine ⟨rfl, rfl, ?_⟩
  decide

/-- Claim C3 as amended: `calculate_remainder` runs the string through the
engine starting from the instance's current state at call time (not the
initial state), most-significant bit first, and resets the engine to the
initial state afterwards; hence the result is the binary value of the
string prefixed by the current remainder, modulo 3, and equals the plain
binary value modulo 3 exactly when the current state is the initial
state. -/
theorem calculate_remainder_runs_from_current_state (st : ModThreeState)
    (s : List Char) (h1 : s ≠ []) (h2 : ∀ c ∈ s, c = '0' ∨ c = '1') :
    calculateRemainder ⟨modThreeMachine, st⟩ s =
      (.ok (binValFrom (stVal st) s % 3),
        ⟨modThreeMachine, ModThreeState.S0⟩) :=
  calc_spec st s h1 h2

/-- Witness for the amended C3: from current state S1, input `"0"` yields
`(1·2 + 0) % 3 = 2` and the instance ends reset to S0. -/
theorem calculate_remainder_runs_from_current_state_witness :
    calculateRemainder ⟨modThreeMachine, ModThreeState.S1⟩ ['0'] =
      (.ok (binValFrom (stVal ModThreeState.S1) ['0'] % 3),
        ⟨modThreeMachine, ModThreeState.S0⟩) :=
  calculate_remainder_runs_from_current_state ModThreeState.S1 ['0']
    (by decide) (by decide)

/-- Claim C4: FSM construction fails with a ValidationError exactly when the
initial state is outside the state set, or some final state is outside the
state set, or some transition source state is outside the state set, or
some transition symbol is outside the alphabet, or some transition target
state is outside the state set; on success the instance's current state is
the initial state. -/
theorem fsm_construction_validation (σ α : Type)
    [DecidableEq σ] [DecidableEq α] (m : Machine σ α) :
    (mkFSM m = .error Err.validationError ↔
      (m.initial ∉ m.states ∨
        (∃ f ∈ m.finals, f ∉ m.states) ∨
        (∃ p ∈ m.trans, p.1 ∉ m.states) ∨
        (∃ p ∈ m.trans, ∃ q ∈ p.2, q.1 ∉ m.alphabet) ∨
        (∃ p ∈ m.trans, ∃ q ∈ p.2, q.2 ∉ m.states))) ∧
    ∀ inst : Inst σ α, mkFSM m = .ok inst → inst = ⟨m, m.initial⟩ := by
  rcases validateFSM_dicho m with hok | herr
  · have hmk : mkFSM m = .ok ⟨m, m.initial⟩ := by rw [mkFSM, hok]
    obtain ⟨hi, hf, ht⟩ := (validateFSM_ok_iff m).mp hok
    constructor
    · rw [hmk]
      constructor
      · intro hcontra; exact Except.noConfusion hcontra
      · intro h
        exfalso
        rcases h with h | h | h | h | h
        · exact h hi
        · obtain ⟨f, hf1, hf2⟩ := h
          exact hf2 (hf f hf1)
        · obtain ⟨p, hp1, hp2⟩ := h
          exact hp2 (ht p hp1).1
        · obtain ⟨p, hp1, q, hq1, hq2⟩ := h
          exact hq2 ((ht p hp1).2 q hq1).1
        · obtain ⟨p, hp1, q, hq1, hq2⟩ := h
          exact hq2 ((ht p hp1).2 q hq1).2
    · intro inst hinst
      rw [hmk] at hinst
      exact (Except.ok.inj hinst).symm
  · have hmk : mkFSM m = .error .validationError := by rw [mkFSM, herr]
    constructor
    · rw [hmk]
      constructor
      · intro _
        by_contra hcon
        push_neg at hcon
        obtain ⟨hc1, hc2, hc3, hc4, hc5⟩ := hcon
        have hok : validateFSM m = .ok () := by
          rw [validateFSM_ok_iff]
          exact ⟨hc1, hc2, fun p hp =>
            ⟨hc3 p hp, fun q hq => ⟨hc4 p hp q hq, hc5 p hp q hq⟩⟩⟩
        rw [hok] at herr
        exact Except.noConfusion herr
      · intro _; rfl
    · intro inst hinst
      rw [hmk] at hinst
      exact Except.noConfusion hinst

/-- Witness for C4: a machine whose initial state is outside its state set
is rejected with a ValidationError. -/
theorem fsm_construction_validation_witness :
    mkFSM (⟨[ModThreeState.S0], ['0'], ModThreeState.S1, [], []⟩ :
        Machine ModThreeState Char) = .error Err.validationError :=
  (fsm_construction_validation ModThreeState Char
    ⟨[ModThreeState.S0], ['0'], ModThreeState.S1, [], []⟩).1.mpr
    (Or.inl (by decide))

/-- Claim C5: for every string with at least one character outside
`{'0','1'}`, `calculate_remainder` fails with an InvalidSymbolError and the
whole input is rejected up front: the returned instance is exactly the one
passed in, whatever its current state, so no state mutation happened. -/
theorem calculate_remainder_rejects_invalid_atomically (st : ModThreeState)
    (s : List Char) (h : ∃ c ∈ s, ¬ (c = '0' ∨ c = '1')) :
    calculateRemainder ⟨modThreeMachine, st⟩ s =
      (.error .invalidSymbol, ⟨modThreeMachine, st⟩) := by
  apply calc_invalid_aux
  intro hall
  obtain ⟨c, hc, hne⟩ := h
  exact hne (hall c hc)

/-- Witness for C5: `"102"` is rejected atomically, leaving the state at
S0 even though its first two characters are valid. -/
theorem calculate_remainder_rejects_invalid_atomically_witness :
    calculateRemainder ⟨modThreeMachine, ModThreeState.S0⟩
        ['1', '0', '2'] =
      (.error .invalidSymbol, ⟨modThreeMachine, ModThreeState.S0⟩) :=
  calculate_remainder_rejects_invalid_atomically ModThreeState.S0
    ['1', '0', '2'] (by decide)

/-- Claim C6: on the empty input both the generic engine's `process_string`
and the specialization's `calculate_remainder` fail with an EmptyInputError
and return the instance unchanged (no state mutation). -/
theorem empty_input_rejected (σ α : Type)
    [DecidableEq σ] [DecidableEq α] :
    (∀ i : Inst σ α, processString i [] = (.error .emptyInput, i)) ∧
    (∀ j : Inst ModThreeState Char,
      calculateRemainder j [] = (.error .emptyInput, j)) :=
  ⟨fun _ => rfl, fun _ => rfl⟩

/-- Witness for C6: the empty string on a fresh modulo-3 instance. -/
theorem empty_input_rejected_witness :
    processString (⟨modThreeMachine, ModThreeState.S0⟩ :
        Inst ModThreeState Char) [] =
      (.error .emptyInput, ⟨modThreeMachine, ModThreeState.S0⟩) ∧
    calculateRemainder ⟨modThreeMachine, ModThreeState.S0⟩ [] =
      (.error .emptyInput, ⟨modThreeMachine, ModThreeState.S0⟩) :=
  ⟨(empty_input_rejected ModThreeState Char).1
      ⟨modThreeMachine, ModThreeState.S0⟩,
    (empty_input_rejected ModThreeState Char).2
      ⟨modThreeMachine, ModThreeState.S0⟩⟩

/-- Claim C7: `process_input` with a symbol that is in the alphabet but
whose `(current state, symbol)` pair is absent from the transition table
fails with an UndefinedTransitionError and returns the instance unchanged
(the lookup raises before the assignment to the current state). -/
theorem step_undefined_transition (σ α : Type)
    [DecidableEq σ] [DecidableEq α] (i : Inst σ α) (sym : α)
    (h1 : sym ∈ i.machine.alphabet)
    (h2 : lookupTrans i.machine i.current sym = none) :
    processInput i sym = (.error .undefinedTransition, i) := by
  rw [processInput, if_pos h1, h2]

/-- Witness for C7: on the deliberately partial machine, `'1'` is in the
alphabet but `(S0, '1')` has no table entry. -/
theorem step_undefined_transition_witness :
    '1' ∈ partialMachine.alphabet ∧
    lookupTrans partialMachine ModThreeState.S0 '1' = none ∧
    processInput ⟨partialMachine, ModThreeState.S0⟩ '1' =
      (.error .undefinedTransition, ⟨partialMachine, ModThreeState.S0⟩) :=
  ⟨by decide, by decide,
    step_undefined_transition ModThreeState Char
      ⟨partialMachine, ModThreeState.S0⟩ '1' (by decide) (by decide)⟩

/-- Counterexample for C8: on an instance whose current state was moved to
S1 by a step of the inherited engine API, two successive
`calculate_remainder` calls with the same input `"0"` return 2 and then 0:
the first call runs from S1 and only then resets, so the two results
differ. -/
theorem calculate_remainder_twice_differs_after_mutation :
    (processInput ⟨modThreeMachine, ModThreeState.S0⟩ '1').2 =
      ⟨modThreeMachine, ModThreeState.S1⟩ ∧
    (calculateRemainder ⟨modThreeMachine, ModThreeState.S1⟩ ['0']).1 =
      .ok 2 ∧
    (calculateRemainder
        ((calculateRemainder ⟨modThreeMachine, ModThreeState.S1⟩ ['0']).2)
        ['0']).1 = .ok 0 ∧
    (calculateRemainder ⟨modThreeMachine, ModThreeState.S1⟩ ['0']).1 ≠
      (calculateRemainder
        ((calculateRemainder ⟨modThreeMachine, ModThreeState.S1⟩ ['0']).2)
        ['0']).1 := by
  refine ⟨rfl, rfl, rfl, ?_⟩
  decide

/-- Claim C8 as amended: provided the instance's current state equals the
initial state when the first call is made (e.g. freshly constructed),
calling `calculate_remainder` twice with the same input gives identical
outcomes, because every call from the initial state returns the instance
with its current state back at the initial state. -/
theorem calculate_remainder_twice_same_from_initial (s : List Char) :
    calculateRemainder
        ((calculateRemainder ⟨modThreeMachine, ModThreeState.S0⟩ s).2) s =
      calculateRemainder ⟨modThreeMachine, ModThreeState.S0⟩ s := by
  rw [calc_snd_from_initial s]

/-- Witness for the amended C8 at input `"10"`. -/
theorem calculate_remainder_twice_same_from_initial_witness :
    calculateRemainder
        ((calculateRemainder ⟨modThreeMachine, ModThreeState.S0⟩
          ['1', '0']).2) ['1', '0'] =
      calculateRemainder ⟨modThreeMachine, ModThreeState.S0⟩ ['1', '0'] :=
  calculate_remainder_twice_same_from_initial ['1', '0']

/-- Claim C9: prepending a `'0'` character to a non-empty binary string
does not change the result of `calculate_remainder` on a fresh instance. -/
theorem leading_zeros_preserve_remainder (s : List Char) (h1 : s ≠ [])
    (h2 : ∀ c ∈ s, c = '0' ∨ c = '1') :
    calculateRemainder ⟨modThreeMachine, ModThreeState.S0⟩ ('0' :: s) =
      calculateRemainder ⟨modThreeMachine, ModThreeState.S0⟩ s := by
  have h2c : ∀ c ∈ ('0' :: s), c = '0' ∨ c = '1' := by
    intro c hc
    rcases List.mem_cons.mp hc with h | h
    · exact Or.inl h
    · exact h2 c h
  rw [calc_spec _ _ (by simp) h2c, calc_spec _ s h1 h2]
  rfl

/-- Witness for C9: `calculate_remainder("001") = calculate_remainder("01")`. -/
theorem leading_zeros_preserve_remainder_witness :
    calculateRemainder ⟨modThreeMachine, ModThreeState.S0⟩
        ['0', '0', '1'] =
      calculateRemainder ⟨modThreeMachine, ModThreeState.S0⟩ ['0', '1'] :=
  leading_zeros_preserve_remainder ['0', '1'] (by decide) (by decide)

/-- Claim C10: from any of the three states, a non-empty binary input drives
`process_string` to a final state that is again one of S0, S1, S2, a key of
`remainder_map`; hence the invalid-final-state RuntimeError branch of
`calculate_remainder` is unreachable. -/
theorem final_state_always_decodable (st : ModThreeState) (s : List Char)
    (h1 : s ≠ []) (h2 : ∀ c ∈ s, c = '0' ∨ c = '1') :
    ∃ f : ModThreeState,
      processString ⟨modThreeMachine, st⟩ s = (.ok f, ⟨modThreeMachine, f⟩) ∧
      f ∈ modThreeMachine.states ∧
      lookupA f remainderMap ≠ none ∧
      (calculateRemainder ⟨modThreeMachine, st⟩ s).1 ≠
        .error Err.invalidFinalState := by
  refine ⟨stateOfMod (binValFrom (stVal st) s),
    processString_run st s h1 h2, ?_, ?_, ?_⟩
  · generalize stateOfMod (binValFrom (stVal st) s) = f
    cases f <;> decide
  · rw [lookupA_remainderMap]
    exact fun h => Option.noConfusion h
  · rw [calc_spec st s h1 h2]
    exact fun h => Except.noConfusion h

/-- Witness for C10 from state S2 on input `"1"`. -/
theorem final_state_always_decodable_witness :
    ∃ f : ModThreeState,
      processString ⟨modThreeMachine, ModThreeState.S2⟩ ['1'] =
        (.ok f, ⟨modThreeMachine, f⟩) ∧
      f ∈ modThreeMachine.states ∧
      lookupA f remainderMap ≠ none ∧
      (calculateRemainder ⟨modThreeMachine, ModThreeState.S2⟩ ['1']).1 ≠
        .error Err.invalidFinalState :=
  final_state_always_decodable ModThreeState.S2 ['1'] (by decide) (by decide)

end ModThreeVerify
